import Mathlib

/-!
Shallow embedding of `src/advanced-vector/vector.h`: a growable contiguous
container `Vector<T>` built on a raw memory block `RawMemory<T>`.

Modelling conventions:
* A `Vector<T>` value is modelled by the list of its live elements
  (the objects constructed in slots `[0, size_)`) together with
  `data_.Capacity()`.  `size_` is the length of that list; the slots
  `[size_, capacity)` hold no value in the model, exactly as they hold no
  constructed object in the code.
* C++ moves are modelled as value copies: every moved-from slot in the code
  is subsequently either destroyed or assigned over before it is observed,
  so treating a move as a copy of the value is observationally exact.
* `std::uninitialized_value_construct_n` (value construction of `T`) is
  modelled with an explicit parameter `d : T` standing for the
  value-constructed element.
* Pointer identity (`this != &rhs` in the assignment operators) is modelled
  by an explicit boolean argument `selfIs` that is `true` exactly when the
  two arguments denote the same object.
* Where a claim needs operation counts (allocations, move/copy
  constructions, constructions/destructions under an injected failure),
  instrumented variants of the same source functions are defined alongside,
  returning the counts explicitly.
-/

namespace AdvVec

/-- Value-level state of `Vector<T>` (vector.h lines 77-127): `elems` is the
list of live elements in slots `[0, size_)` of `data_`, and `cap` is
`data_.Capacity()`.  `Size()` returns `size_ = elems.length`. -/
structure Vector (T : Type) where
  elems : List T
  cap : Nat
deriving DecidableEq, Repr

variable {T : Type}

/-- The default constructor `Vector() noexcept = default` (line 83):
`data_` is a default `RawMemory` (null buffer, capacity 0), `size_ = 0`. -/
def Vector.mkEmpty : Vector T := ⟨[], 0⟩

/-- The member `Size()` (lines 224-227): returns `size_`. -/
def Vector.Size (v : Vector T) : Nat := v.elems.length

/-- The member `Capacity()` (lines 219-222): returns `data_.Capacity()`. -/
def Vector.Capacity (v : Vector T) : Nat := v.cap

/-- The sized constructor `Vector(size_t size)` (lines 246-249): allocates
`size` slots and value-constructs `size` elements.  `d` stands for the
value-constructed element. -/
def Vector.mkSized (size : Nat) (d : T) : Vector T := ⟨List.replicate size d, size⟩

/-- The copy constructor `Vector(const Vector&)` (lines 239-244): allocates
exactly `other.size_` slots and copy-constructs each element. -/
def Vector.copyOf (other : Vector T) : Vector T := ⟨other.elems, other.Size⟩

/-- The move constructor `Vector(Vector&&)` (lines 234-237): starts empty
and swaps with the source; returns the pair (new vector, source after). -/
def Vector.moveOf (other : Vector T) : Vector T × Vector T :=
  (⟨other.elems, other.cap⟩, Vector.mkEmpty)

/-- The capacity chosen by every implicit-growth reallocation
(`size_ == 0 ? 1 : size_ * 2`, lines 261, 281 and 357). -/
def growCap (n : Nat) : Nat := if n = 0 then 1 else n * 2

/-- The member template `PushBackImpl(U&&)` (lines 257-275).  When
`size_ == Capacity()` it allocates a block of `growCap size_` slots,
constructs the new element at slot `size_` of the new block, transplants
the old elements into slots `[0, size_)` (move or copy per the
`if constexpr` on lines 263-264; value-identical either way), destroys the
originals and swaps; otherwise it constructs the new element in the next
free slot.  Either way `++size_`. -/
def Vector.PushBackImpl (v : Vector T) (x : T) : Vector T :=
  if v.Size = v.Capacity then
    ⟨v.elems ++ [x], growCap v.Size⟩
  else
    ⟨v.elems ++ [x], v.cap⟩

/-- The overload `PushBack(const T&)` (lines 131-134): forwards to
`PushBackImpl`. -/
def Vector.PushBack (v : Vector T) (x : T) : Vector T := v.PushBackImpl x

/-- The overload `PushBack(T&&)` (lines 136-139): forwards to
`PushBackImpl` with a move of the value. -/
def Vector.PushBackMove (v : Vector T) (x : T) : Vector T := v.PushBackImpl x

/-- The member `EmplaceBack(Args&&...)` (lines 277-296): same body as
`PushBackImpl`, and returns a reference to the element just built
(`*(data_.GetAddress() + size_ - 1)`), modelled as the value `x`. -/
def Vector.EmplaceBack (v : Vector T) (x : T) : Vector T × T :=
  (if v.Size = v.Capacity then
    ⟨v.elems ++ [x], growCap v.Size⟩
  else
    ⟨v.elems ++ [x], v.cap⟩, x)

/-- The member `Reserve(size_t)` (lines 141-156): returns unchanged when
`new_capacity <= data_.Capacity()`; otherwise allocates `new_capacity`
slots, transplants all `size_` elements in order (move or copy per the
`if constexpr`), destroys the originals and swaps the new block in. -/
def Vector.Reserve (v : Vector T) (newCapacity : Nat) : Vector T :=
  if newCapacity ≤ v.cap then v
  else ⟨v.elems, newCapacity⟩

/-- The member `Resize(size_t)` (lines 164-174): first `Reserve(new_size)`;
then if `new_size < size_` destroys the tail `[new_size, size_)`, else
value-constructs `new_size - size_` elements after the tail; finally
`size_ = new_size`.  `d` stands for the value-constructed element. -/
def Vector.Resize (v : Vector T) (newSize : Nat) (d : T) : Vector T :=
  let v1 := v.Reserve newSize
  if newSize < v1.Size then
    ⟨v1.elems.take newSize, v1.cap⟩
  else
    ⟨v1.elems ++ List.replicate (newSize - v1.Size) d, v1.cap⟩

/-- The member `PopBack()` (lines 251-255): destroys the last live element
(`std::destroy_at(end() - 1)`) and decrements `size_`. -/
def Vector.PopBack (v : Vector T) : Vector T := ⟨v.elems.dropLast, v.cap⟩

/-- The member `Swap(Vector&)` (lines 158-162): swaps `data_` and `size_`
of the two objects; returns the pair (this after, other after). -/
def Vector.SwapWith (v other : Vector T) : Vector T × Vector T := (other, v)

/-- The copy assignment `operator=(const Vector&)` (lines 184-206).
`selfIs` models the pointer identity test `this != &rhs`: when `true`
nothing happens.  Otherwise, if `rhs.size_ > data_.Capacity()` a full
temporary copy is built and swapped in; else the overlapping front is
overwritten element-wise with `std::copy`, and then either the excess tail
is destroyed (`rhs.size_ <= size_`) or the missing tail of `rhs` is
copy-constructed after the overwritten front, and `size_ = rhs.size_`. -/
def Vector.assignCopy (self rhs : Vector T) (selfIs : Bool) : Vector T :=
  if selfIs then self
  else if self.Capacity < rhs.Size then
    Vector.copyOf rhs
  else
    if rhs.Size ≤ self.Size then
      ⟨rhs.elems.take rhs.Size, self.cap⟩
    else
      ⟨rhs.elems.take self.Size ++ rhs.elems.drop self.Size, self.cap⟩

/-- The move assignment `operator=(Vector&&)` (lines 176-182). `selfIs`
models the pointer identity test `this != &rhs`: when `true` nothing
happens; otherwise the two objects `Swap`.  Returns (this after, rhs
after). -/
def Vector.assignMove (self rhs : Vector T) (selfIs : Bool) : Vector T × Vector T :=
  if selfIs then (self, rhs)
  else (rhs, self)

/-- The call `std::uninitialized_move(end() - 1, end(), end())` on line 344
(and, value-wise, the pair `new (end()) T(*(end() - 1))` followed by
`std::uninitialized_copy(end() - 1, end(), end())` on lines 348-349):
extends the live region by one slot constructed from the current last
element. -/
def constructBackFromLast (l : List T) : List T := l ++ l.drop (l.length - 1)

/-- The call `std::move_backward(pos_it, end() - 1, end())` on line 345
(and `std::copy_backward` on line 350, value-identical): with the live list
of length `n + 1` after the one-slot extension, slot `j` receives the old
slot `j - 1` for `j` in `[i+1, n)`; slots `[0, i]` and slot `n` are
unchanged. -/
def shiftTailRight (l : List T) (i : Nat) : List T :=
  l.take (i + 1) ++ (l.take (l.length - 1 - 1)).drop i ++ l.drop (l.length - 1)

/-- The member `Emplace(const_iterator pos, Args&&...)` (lines 328-382),
with `pos` given as the index `i = pos - begin()` and the built element as
the value `x`.  Returns the new state and the index of the returned
iterator.
With spare capacity and `pos == end()`: constructs at `end()`, returns
`end() - 1`.  With spare capacity otherwise: builds `tmp`, extends the live
region by one slot from the last element, shifts `[i, size_-1)` one slot
right, assigns `data_[i] = tmp`, returns `begin() + i`.  Without spare
capacity: allocates `growCap size_` slots, constructs `x` at slot `i` of
the new block, transplants `[0, i)` to `[0, i)` and `[i, size_)` to
`[i+1, size_+1)` (move or copy per the `if constexpr`), destroys the
originals, swaps, returns `begin() + i`. -/
def Vector.Emplace (v : Vector T) (i : Nat) (x : T) : Vector T × Nat :=
  if v.Size < v.Capacity then
    if i = v.Size then
      (⟨v.elems ++ [x], v.cap⟩, v.Size)
    else
      let l1 := constructBackFromLast v.elems
      let l2 := shiftTailRight l1 i
      (⟨l2.set i x, v.cap⟩, i)
  else
    (⟨v.elems.take i ++ [x] ++ v.elems.drop i, growCap v.Size⟩, i)

/-- The overloads `Insert(pos, const T&)` and `Insert(pos, T&&)` (lines
399-409): both forward to `Emplace`. -/
def Vector.Insert (v : Vector T) (i : Nat) (x : T) : Vector T × Nat := v.Emplace i x

/-- The member `Erase(const_iterator pos)` (lines 384-397), with `pos`
given as the index `i`: shifts `[i+1, size_)` one slot left (`std::move` or
`std::copy` per the `if constexpr`), destroys the vacated last slot,
decrements `size_`, returns `begin() + i`. -/
def Vector.Erase (v : Vector T) (i : Nat) : Vector T × Nat :=
  (⟨v.elems.take i ++ v.elems.drop (i + 1), v.cap⟩, i)

/-! ## Compile-time transplant dispatch, instrumented

The growth transplants in `Reserve`, `PushBackImpl`, `EmplaceBack` and
`Emplace` all branch on
`std::is_nothrow_move_constructible_v<T> || !std::is_copy_constructible_v<T>`
(lines 148-149, 263-264, 283-284, 342-343, 362-363, 370-371), choosing
`std::uninitialized_move` over `std::uninitialized_copy`.  The two traits
are modelled as booleans, and the variants below return, next to the new
state, how many move constructions and copy constructions of the EXISTING
elements the transplant performed. -/

/-- The two type traits the `if constexpr` dispatch reads. -/
structure Traits where
  nothrowMove : Bool
  copyCtor : Bool
deriving DecidableEq, Repr

/-- The condition of every transplant `if constexpr`:
`std::is_nothrow_move_constructible_v<T> || !std::is_copy_constructible_v<T>`. -/
def Traits.moveTransplant (tr : Traits) : Bool := tr.nothrowMove || !tr.copyCtor

/-- Counts of move constructions and copy constructions performed on the
existing elements during one operation. -/
structure OpCount where
  moves : Nat
  copies : Nat
deriving DecidableEq, Repr

/-- Variant of `Reserve` (lines 141-156) with the transplant move/copy constructions
of the existing elements counted. -/
def Vector.ReserveCounted (tr : Traits) (v : Vector T) (newCapacity : Nat) :
    Vector T × OpCount :=
  if newCapacity ≤ v.cap then (v, ⟨0, 0⟩)
  else if tr.moveTransplant then (⟨v.elems, newCapacity⟩, ⟨v.Size, 0⟩)
  else (⟨v.elems, newCapacity⟩, ⟨0, v.Size⟩)

/-- Variant of `PushBackImpl` (lines 257-275) with the transplant move/copy
constructions of the existing elements counted (the construction of the
appended element itself is not a construction of an existing element and is
not counted). -/
def Vector.PushBackCounted (tr : Traits) (v : Vector T) (x : T) :
    Vector T × OpCount :=
  if v.Size = v.Capacity then
    if tr.moveTransplant then (⟨v.elems ++ [x], growCap v.Size⟩, ⟨v.Size, 0⟩)
    else (⟨v.elems ++ [x], growCap v.Size⟩, ⟨0, v.Size⟩)
  else
    (⟨v.elems ++ [x], v.cap⟩, ⟨0, 0⟩)

/-- The growth branch of `Emplace` (lines 356-381) with the transplant
move/copy constructions of the existing elements counted: the block
`[0, i)` on lines 361-367 and the block `[i, size_)` on lines 369-375,
each moved or copied per the `if constexpr`; together they transplant all
`size_` existing elements. -/
def Vector.EmplaceGrowCounted (tr : Traits) (v : Vector T) (i : Nat) (x : T) :
    Vector T × OpCount :=
  if tr.moveTransplant then
    (⟨v.elems.take i ++ [x] ++ v.elems.drop i, growCap v.Size⟩, ⟨i + (v.Size - i), 0⟩)
  else
    (⟨v.elems.take i ++ [x] ++ v.elems.drop i, growCap v.Size⟩, ⟨0, i + (v.Size - i)⟩)

/-! ## Allocation counting

`RawMemory<T>::Allocate(n)` (lines 67-69) calls `operator new` exactly when
`n != 0` and allocates nothing when `n == 0`. -/

/-- Number of `operator new` calls performed by `RawMemory<T>::Allocate(n)`
(lines 67-69). -/
def allocCount (n : Nat) : Nat := if n = 0 then 0 else 1

/-- Variant of `Reserve` (lines 141-156) with its `operator new` calls counted: the
early return performs none; otherwise the single `RawMemory<T>
new_data(new_capacity)` on line 147 performs `allocCount new_capacity`. -/
def Vector.ReserveAlloc (v : Vector T) (newCapacity : Nat) : Vector T × Nat :=
  if newCapacity ≤ v.cap then (v, 0)
  else (⟨v.elems, newCapacity⟩, allocCount newCapacity)

/-! ## Injected copy failure during a growth transplant

For element types whose copy constructor can fail, the transplant branch
taken is `std::uninitialized_copy_n`.  The model below injects a failure at
a chosen transplant index and counts element constructions and
destructions performed by the whole operation. -/

/-- Counts of element constructions and element destructions performed. -/
structure ExecCount where
  ctorN : Nat
  dtorN : Nat
deriving DecidableEq, Repr

/-- Model of `std::uninitialized_copy_n(src, n, dst)` into fresh memory, with the
copy numbered `k` (0-based) failing when `failIdx = some k` with
`k < src.length`: the standard guarantees that on failure the copies
already constructed are destroyed before the exception propagates.
Returns the constructed list (`Except.error` on failure) and the counts of
constructions and destructions the call performed. -/
def uninitCopyN (src : List T) (failIdx : Option Nat) :
    Except Unit (List T) × ExecCount :=
  match failIdx with
  | none => (Except.ok src, ⟨src.length, 0⟩)
  | some k =>
    if k < src.length then (Except.error (), ⟨k, k⟩)
    else (Except.ok src, ⟨src.length, 0⟩)

/-- Variant of `PushBackImpl` (lines 257-275) for an element type taking the copy
branch of the transplant, with a copy failure injected at transplant index
`failIdx` and element constructions/destructions counted.  Returns the
resulting state, whether an exception propagated, and the counts.
Growth path, following the source order: `RawMemory<T> temp(growCap
size_)` (line 261); `new (temp.GetAddress() + size_) T(value)` (line 262,
one construction, assumed to succeed — the injected failure is a
transplant-copy failure); `std::uninitialized_copy_n(data_, size_, temp)`
(line 267).  On success: `std::destroy_n(data_, size_)` (line 269, `size_`
destructions), `data_.Swap(temp)`, `++size_`.  On failure: the exception
propagates out of `PushBackImpl`; unwinding runs the destructor of `temp`,
which only frees the block (`RawMemory::~RawMemory` on line 35 calls
`Deallocate`, never any element destructor), and `data_` and `size_` are
left untouched. -/
def Vector.PushBackImplCopyFail (v : Vector T) (x : T) (failIdx : Option Nat) :
    Vector T × Bool × ExecCount :=
  if v.Size = v.Capacity then
    match uninitCopyN v.elems failIdx with
    | (Except.ok copied, c) =>
      (⟨copied ++ [x], growCap v.Size⟩, false, ⟨1 + c.ctorN, c.dtorN + v.Size⟩)
    | (Except.error _, c) =>
      (v, true, ⟨1 + c.ctorN, c.dtorN⟩)
  else
    (⟨v.elems ++ [x], v.cap⟩, false, ⟨1, 0⟩)

/-! ## Append sequences -/

/-- One append from a mixed sequence: `(true, x)` is `PushBack(const T&)`
(append by copy) and `(false, x)` is `PushBack(T&&)` (append by move). -/
def pushStep (v : Vector T) (p : Bool × T) : Vector T :=
  if p.1 then v.PushBack p.2 else v.PushBackMove p.2

/-- The state after performing a mixed sequence of appends, starting from a
default-constructed `Vector`. -/
def pushSeq (ops : List (Bool × T)) : Vector T :=
  ops.foldl pushStep Vector.mkEmpty

/-! ## Reachable states -/

/-- States reachable from any constructor of `Vector<T>` by any sequence of
the public operations.  `d` stands for the value-constructed element used
by the sized constructor and `Resize`.  The hypotheses on `Emplace`,
`Erase` and `PopBack` are the preconditions of those calls (`pos` in
`[begin(), end()]` resp. `[begin(), end())`, container non-empty); the
hypothesis on `assignCopy`/`assignMove` ties the pointer-identity flag to
actual identity of the arguments. -/
inductive Reachable (d : T) : Vector T → Prop
  | default : Reachable d Vector.mkEmpty
  | sized (n : Nat) : Reachable d (Vector.mkSized n d)
  | copyCtor {v : Vector T} : Reachable d v → Reachable d (Vector.copyOf v)
  | moveCtorDst {v : Vector T} : Reachable d v → Reachable d (Vector.moveOf v).1
  | moveCtorSrc {v : Vector T} : Reachable d v → Reachable d (Vector.moveOf v).2
  | pushBack {v : Vector T} (x : T) : Reachable d v → Reachable d (v.PushBack x)
  | pushBackMove {v : Vector T} (x : T) : Reachable d v → Reachable d (v.PushBackMove x)
  | emplaceBack {v : Vector T} (x : T) : Reachable d v → Reachable d (v.EmplaceBack x).1
  | emplace {v : Vector T} (i : Nat) (x : T) : i ≤ v.Size → Reachable d v →
      Reachable d (v.Emplace i x).1
  | insert {v : Vector T} (i : Nat) (x : T) : i ≤ v.Size → Reachable d v →
      Reachable d (v.Insert i x).1
  | erase {v : Vector T} (i : Nat) : i < v.Size → Reachable d v →
      Reachable d (v.Erase i).1
  | popBack {v : Vector T} : v.Size ≠ 0 → Reachable d v → Reachable d v.PopBack
  | resize {v : Vector T} (n : Nat) : Reachable d v → Reachable d (v.Resize n d)
  | reserve {v : Vector T} (c : Nat) : Reachable d v → Reachable d (v.Reserve c)
  | assignCopy {v w : Vector T} (b : Bool) : (b = true → w = v) →
      Reachable d v → Reachable d w → Reachable d (v.assignCopy w b)
  | assignMoveDst {v w : Vector T} (b : Bool) : (b = true → w = v) →
      Reachable d v → Reachable d w → Reachable d (v.assignMove w b).1
  | assignMoveSrc {v w : Vector T} (b : Bool) : (b = true → w = v) →
      Reachable d v → Reachable d w → Reachable d (v.assignMove w b).2
  | swapFst {v w : Vector T} : Reachable d v → Reachable d w →
      Reachable d (v.SwapWith w).1
  | swapSnd {v w : Vector T} : Reachable d v → Reachable d w →
      Reachable d (v.SwapWith w).2

/-! ## Helper lemmas -/

lemma PushBackImpl_elems (v : Vector T) (x : T) :
    (v.PushBackImpl x).elems = v.elems ++ [x] := by
  unfold Vector.PushBackImpl
  split <;> rfl

lemma pushStep_elems (v : Vector T) (p : Bool × T) :
    (pushStep v p).elems = v.elems ++ [p.2] := by
  unfold pushStep Vector.PushBack Vector.PushBackMove
  split <;> exact PushBackImpl_elems v p.2

lemma foldl_pushStep_elems (ops : List (Bool × T)) (v : Vector T) :
    (ops.foldl pushStep v).elems = v.elems ++ ops.map Prod.snd := by
  induction ops generalizing v with
  | nil => simp
  | cons p t ih =>
    simp only [List.foldl_cons, ih, pushStep_elems, List.map_cons]
    simp

lemma pushSeq_elems (ops : List (Bool × T)) :
    (pushSeq ops).elems = ops.map Prod.snd := by
  unfold pushSeq
  rw [foldl_pushStep_elems]
  rfl

lemma succ_le_growCap (n : Nat) : n + 1 ≤ growCap n := by
  unfold growCap
  split <;> omega

lemma drop_take_drop (l : List T) (i : Nat) (h : i ≤ l.length - 1) :
    (l.take (l.length - 1)).drop i ++ l.drop (l.length - 1) = l.drop i := by
  conv_rhs => rw [← List.take_append_drop (l.length - 1) l]
  rw [List.drop_append_eq_append_drop, List.length_take,
    Nat.min_eq_left (by omega : l.length - 1 ≤ l.length),
    (by omega : i - (l.length - 1) = 0), List.drop_zero]

lemma set_take_succ (l : List T) (i : Nat) (x : T) (h : i < l.length) :
    (l.take (i + 1)).set i x = l.take i ++ [x] := by
  rw [List.take_succ, List.getElem?_eq_getElem h]
  rw [List.set_append_right _ _
    (by rw [List.length_take, Nat.min_eq_left (Nat.le_of_lt h)] :
      (l.take i).length ≤ i)]
  rw [List.length_take, Nat.min_eq_left (Nat.le_of_lt h), Nat.sub_self]
  rfl

lemma set_shiftTailRight (l : List T) (i : Nat) (x : T) (h : i < l.length) :
    (shiftTailRight (constructBackFromLast l) i).set i x
      = l.take i ++ x :: l.drop i := by
  have hdlen : (l.drop (l.length - 1)).length = 1 := by
    rw [List.length_drop]; omega
  have hAlen : (l ++ l.drop (l.length - 1)).length = l.length + 1 := by
    rw [List.length_append, hdlen]
  unfold shiftTailRight constructBackFromLast
  rw [hAlen]
  simp only [Nat.add_sub_cancel]
  rw [List.take_append_of_le_length (by omega : i + 1 ≤ l.length),
    List.take_append_of_le_length (by omega : l.length - 1 ≤ l.length),
    List.drop_append_eq_append_drop, List.drop_length, Nat.sub_self,
    List.drop_zero, List.nil_append]
  rw [List.append_assoc, drop_take_drop l i (by omega)]
  rw [List.set_append_left _ _
    (by rw [List.length_take, Nat.min_eq_left (by omega : i + 1 ≤ l.length)]; omega :
      i < (l.take (i + 1)).length)]
  rw [set_take_succ l i x h, List.append_assoc, List.singleton_append]

lemma Emplace_elems (v : Vector T) (i : Nat) (x : T) (h : i ≤ v.Size) :
    (v.Emplace i x).1.elems = v.elems.take i ++ x :: v.elems.drop i := by
  unfold Vector.Emplace
  by_cases hc : v.Size < v.Capacity
  · by_cases he : i = v.Size
    · subst he
      rw [if_pos hc, if_pos rfl]
      show v.elems ++ [x] = _
      simp [Vector.Size, List.take_length, List.drop_length]
    · have hlt : i < v.Size := Nat.lt_of_le_of_ne h he
      simp only [hc, if_true, he, if_false, ite_true, ite_false]
      exact set_shiftTailRight v.elems i x hlt
  · simp only [hc, if_false, ite_false]
    show v.elems.take i ++ [x] ++ v.elems.drop i = _
    rw [List.append_assoc, List.singleton_append]

lemma Emplace_ret (v : Vector T) (i : Nat) (x : T) (h : i ≤ v.Size) :
    (v.Emplace i x).2 = i := by
  unfold Vector.Emplace
  by_cases hc : v.Size < v.Capacity
  · by_cases he : i = v.Size
    · subst he
      simp [hc]
    · simp [hc, he]
  · simp [hc]

lemma Emplace_size (v : Vector T) (i : Nat) (x : T) (h : i ≤ v.Size) :
    (v.Emplace i x).1.Size = v.Size + 1 := by
  unfold Vector.Size at *
  rw [Emplace_elems v i x h]
  rw [List.length_append, List.length_take, List.length_cons, List.length_drop]
  omega

lemma Emplace_cap (v : Vector T) (i : Nat) (x : T) :
    (v.Emplace i x).1.cap = if v.Size < v.cap then v.cap else growCap v.Size := by
  unfold Vector.Emplace Vector.Capacity
  by_cases hc : v.Size < v.cap
  · by_cases he : i = v.Size <;> simp [hc, he]
  · simp [hc]

lemma Reserve_elems (v : Vector T) (c : Nat) : (v.Reserve c).elems = v.elems := by
  unfold Vector.Reserve
  split <;> rfl

lemma Reserve_size (v : Vector T) (c : Nat) : (v.Reserve c).Size = v.Size := by
  unfold Vector.Size
  rw [Reserve_elems]

lemma Reserve_cap (v : Vector T) (c : Nat) :
    (v.Reserve c).cap = if c ≤ v.cap then v.cap else c := by
  unfold Vector.Reserve
  split <;> simp_all

lemma Resize_elems (v : Vector T) (n : Nat) (d : T) :
    (v.Resize n d).elems =
      if n < v.Size then v.elems.take n
      else v.elems ++ List.replicate (n - v.Size) d := by
  unfold Vector.Resize
  simp only [Reserve_size, Reserve_elems]
  by_cases hn : n < v.Size <;> simp [hn]

lemma Resize_cap (v : Vector T) (n : Nat) (d : T) :
    (v.Resize n d).cap = (v.Reserve n).cap := by
  unfold Vector.Resize
  simp only []
  split <;> rfl

lemma PushBackImpl_inv (v : Vector T) (x : T) (h : v.Size ≤ v.Capacity) :
    (v.PushBackImpl x).Size ≤ (v.PushBackImpl x).Capacity := by
  unfold Vector.PushBackImpl
  split
  · show (v.elems ++ [x]).length ≤ growCap v.Size
    simp only [List.length_append, List.length_cons, List.length_nil]
    exact succ_le_growCap _
  · rename_i hne
    show (v.elems ++ [x]).length ≤ v.cap
    simp only [List.length_append, List.length_cons, List.length_nil]
    unfold Vector.Size Vector.Capacity at h hne
    omega

lemma Emplace_inv (v : Vector T) (i : Nat) (x : T) (hi : i ≤ v.Size)
    (h : v.Size ≤ v.Capacity) :
    (v.Emplace i x).1.Size ≤ (v.Emplace i x).1.Capacity := by
  have hs := Emplace_size v i x hi
  have hcap := Emplace_cap v i x
  show (v.Emplace i x).1.Size ≤ (v.Emplace i x).1.cap
  rw [hs, hcap]
  unfold Vector.Size Vector.Capacity at h
  split
  · omega
  · exact succ_le_growCap _

lemma Erase_size (v : Vector T) (i : Nat) (h : i < v.Size) :
    (v.Erase i).1.Size = v.Size - 1 := by
  unfold Vector.Size at *
  show (v.elems.take i ++ v.elems.drop (i + 1)).length = v.elems.length - 1
  rw [List.length_append, List.length_take, List.length_drop]
  omega

lemma assignCopy_inv (v w : Vector T) (b : Bool) (hv : v.Size ≤ v.Capacity)
    (hw : w.Size ≤ w.Capacity) :
    (v.assignCopy w b).Size ≤ (v.assignCopy w b).Capacity := by
  unfold Vector.assignCopy Vector.Size Vector.Capacity at *
  cases b
  · simp only [Bool.false_eq_true, if_false]
    split
    · exact Nat.le_refl _
    · rename_i h1
      split
      · rename_i h2
        show (w.elems.take w.elems.length).length ≤ v.cap
        rw [List.length_take]
        omega
      · rename_i h2
        show (w.elems.take v.elems.length ++ w.elems.drop v.elems.length).length ≤ v.cap
        rw [List.length_append, List.length_take, List.length_drop]
        omega
  · exact hv

/-! ## Claim theorems -/

/-- C2: for every sequence of N appends (PushBack by copy or by move, in
any mixture) starting from an empty vector, afterward `Size()` equals N and
the element at each index `i` equals the value appended i-th. -/
theorem pushBack_seq_correct (d : T) (ops : List (Bool × T)) :
    (pushSeq ops).Size = ops.length ∧
    ∀ i, i < ops.length →
      (pushSeq ops).elems.getD i d = (ops.getD i (true, d)).2 := by
  constructor
  · unfold Vector.Size
    rw [pushSeq_elems, List.length_map]
  · intro i hi
    rw [List.getD_eq_getElem?_getD, List.getD_eq_getElem?_getD, pushSeq_elems,
      List.getElem?_map]
    rw [List.getElem?_eq_getElem hi]
    rfl

/-- Witness for C2 at the concrete sequence [copy-append 4, move-append 9]. -/
theorem pushBack_seq_correct_witness :
    (pushSeq [(true, 4), (false, 9)]).Size = 2 ∧
    (pushSeq [(true, (4 : Nat)), (false, 9)]).elems.getD 1 0 = 9 := by
  refine ⟨(pushBack_seq_correct 0 [(true, 4), (false, 9)]).1, ?_⟩
  exact (pushBack_seq_correct 0 [(true, 4), (false, 9)]).2 1 (by decide)

/-- C7: `Reserve(C)` with `C` at most the current capacity performs no
allocation and leaves the vector unchanged; with `C` greater than the
current capacity it performs exactly one allocation, sets the capacity to
`C` and preserves the elements in order. -/
theorem reserve_correct (v : Vector T) (c : Nat) :
    (c ≤ v.Capacity → v.ReserveAlloc c = (v, 0)) ∧
    (v.Capacity < c →
      (v.ReserveAlloc c).2 = 1 ∧
      (v.ReserveAlloc c).1.Capacity = c ∧
      (v.ReserveAlloc c).1.elems = v.elems ∧
      (v.ReserveAlloc c).1.Size = v.Size) := by
  unfold Vector.ReserveAlloc Vector.Capacity allocCount
  constructor
  · intro hle
    simp [hle]
  · intro hgt
    have hne : ¬ c ≤ v.cap := by omega
    have hz : ¬ c = 0 := by omega
    simp [hne, hz, Vector.Capacity, Vector.Size]

/-- Witness for C7 at a vector of one element with capacity 2, reserving 1
(no-op) and 7 (one allocation). -/
theorem reserve_correct_witness :
    Vector.ReserveAlloc (⟨[5], 2⟩ : Vector Nat) 1 = (⟨[5], 2⟩, 0) ∧
    (Vector.ReserveAlloc (⟨[5], 2⟩ : Vector Nat) 7).2 = 1 ∧
    (Vector.ReserveAlloc (⟨[5], 2⟩ : Vector Nat) 7).1.Capacity = 7 := by
  refine ⟨(reserve_correct ⟨[5], 2⟩ 1).1 (by decide), ?_, ?_⟩
  · exact ((reserve_correct ⟨[5], 2⟩ 7).2 (by decide)).1
  · exact ((reserve_correct ⟨[5], 2⟩ 7).2 (by decide)).2.1

/-- C8: every append or insert performed with `size_ == Capacity()` leaves
the capacity equal to `max 1 (2 * old capacity)`. -/
theorem growth_capacity_doubles (v : Vector T) (x : T) (i : Nat)
    (h : v.Size = v.Capacity) :
    (v.PushBackImpl x).Capacity = max 1 (2 * v.Capacity) ∧
    (v.EmplaceBack x).1.Capacity = max 1 (2 * v.Capacity) ∧
    (v.Emplace i x).1.Capacity = max 1 (2 * v.Capacity) ∧
    (v.Insert i x).1.Capacity = max 1 (2 * v.Capacity) := by
  have h' : v.Size = v.cap := h
  have hcap : growCap v.cap = max 1 (2 * v.cap) := by
    unfold growCap
    rcases Nat.eq_zero_or_pos v.cap with h0 | hpos
    · simp [h0]
    · have hz : ¬ v.cap = 0 := by omega
      simp only [hz, if_false]
      rw [Nat.max_eq_right (by omega : 1 ≤ 2 * v.cap)]
      omega
  refine ⟨?_, ?_, ?_, ?_⟩
  · unfold Vector.PushBackImpl
    simp [Vector.Capacity, h', hcap]
  · unfold Vector.EmplaceBack
    simp [Vector.Capacity, h', hcap]
  · unfold Vector.Emplace
    simp [Vector.Capacity, h', hcap]
  · unfold Vector.Insert Vector.Emplace
    simp [Vector.Capacity, h', hcap]

/-- Witness for C8 at the full vector of one element with capacity 1. -/
theorem growth_capacity_doubles_witness :
    (Vector.PushBackImpl (⟨[5], 1⟩ : Vector Nat) 7).Capacity = max 1 (2 * 1) ∧
    (Vector.Emplace (⟨[5], 1⟩ : Vector Nat) 0 7).1.Capacity = max 1 (2 * 1) := by
  refine ⟨?_, ?_⟩
  · exact (growth_capacity_doubles ⟨[5], 1⟩ 7 0 (by decide)).1
  · exact (growth_capacity_doubles ⟨[5], 1⟩ 7 0 (by decide)).2.2.1

/-- C10: self-assignment, both copy (`v = v`) and move (`v = move(v)`),
leaves the vector unchanged: same length, same capacity, same element
values.  The `true` flag states that the right-hand side is the same
object (`this == &rhs`), under which both operators skip their body. -/
theorem self_assignment_noop (v : Vector T) :
    v.assignCopy v true = v ∧
    (v.assignMove v true).1 = v ∧
    (v.assignCopy v true).Size = v.Size ∧
    (v.assignCopy v true).Capacity = v.Capacity ∧
    (v.assignCopy v true).elems = v.elems := by
  refine ⟨rfl, rfl, rfl, rfl, rfl⟩

/-- C4: inserting `x` before position `i` in `[0, L]` via `Emplace` (and
`Insert`, which forwards to it) yields length `L + 1`, the element at
index `i` equal to `x`, the elements formerly at `[i, L)` shifted to
`[i+1, L+1)` unchanged, the elements at `[0, i)` unchanged, and the
returned iterator denoting index `i`, the location of the inserted element. -/
theorem emplace_insert_correct (d : T) (v : Vector T) (i : Nat) (x : T)
    (h : i ≤ v.Size) :
    (v.Emplace i x).1.Size = v.Size + 1 ∧
    (v.Emplace i x).1.elems.getD i d = x ∧
    (∀ j, j < i → (v.Emplace i x).1.elems.getD j d = v.elems.getD j d) ∧
    (∀ j, i ≤ j → j < v.Size →
      (v.Emplace i x).1.elems.getD (j + 1) d = v.elems.getD j d) ∧
    (v.Emplace i x).2 = i ∧
    v.Insert i x = v.Emplace i x := by
  have hel := Emplace_elems v i x h
  have htk : (v.elems.take i).length = i := by
    rw [List.length_take]
    exact Nat.min_eq_left h
  refine ⟨Emplace_size v i x h, ?_, ?_, ?_, Emplace_ret v i x h, rfl⟩
  · rw [List.getD_eq_getElem?_getD, hel,
      List.getElem?_append_right (Nat.le_of_eq htk), htk, Nat.sub_self]
    simp
  · intro j hj
    rw [List.getD_eq_getElem?_getD, List.getD_eq_getElem?_getD, hel,
      List.getElem?_append_left (by rw [htk]; exact hj),
      List.getElem?_take_of_lt hj]
  · intro j hij hjn
    rw [List.getD_eq_getElem?_getD, List.getD_eq_getElem?_getD, hel,
      List.getElem?_append_right (by rw [htk]; omega), htk,
      (by omega : j + 1 - i = (j - i) + 1), List.getElem?_cons_succ,
      List.getElem?_drop, (by omega : i + (j - i) = j)]

/-- Witness for C4 at the vector [10, 20, 30] with capacity 3, inserting 7
before index 1. -/
theorem emplace_insert_correct_witness :
    (Vector.Emplace (⟨[10, 20, 30], 3⟩ : Vector Nat) 1 7).1.Size = 4 ∧
    (Vector.Emplace (⟨[10, 20, 30], 3⟩ : Vector Nat) 1 7).1.elems.getD 1 0 = 7 ∧
    (Vector.Emplace (⟨[10, 20, 30], 3⟩ : Vector Nat) 1 7).1.elems.getD 2 0 = 20 ∧
    (Vector.Emplace (⟨[10, 20, 30], 3⟩ : Vector Nat) 1 7).2 = 1 := by
  have hc := emplace_insert_correct 0 (⟨[10, 20, 30], 3⟩ : Vector Nat) 1 7 (by decide)
  exact ⟨hc.1, hc.2.1, hc.2.2.2.1 1 (by decide) (by decide), hc.2.2.2.2.1⟩

/-- C5: erasing position `i` in `[0, L)` from a non-empty vector yields
length `L - 1`, the elements formerly at `(i, L)` shifted down one index,
the elements at `[0, i)` unchanged, and the returned iterator denoting
index `i`: the element that now occupies the erased slot (the new end when
the erased element was last). -/
theorem erase_correct (d : T) (v : Vector T) (i : Nat) (h : i < v.Size) :
    (v.Erase i).1.Size = v.Size - 1 ∧
    (∀ j, j < i → (v.Erase i).1.elems.getD j d = v.elems.getD j d) ∧
    (∀ j, i < j → j < v.Size →
      (v.Erase i).1.elems.getD (j - 1) d = v.elems.getD j d) ∧
    (v.Erase i).2 = i ∧
    (i < v.Size - 1 → (v.Erase i).1.elems.getD i d = v.elems.getD (i + 1) d) := by
  have hel : (v.Erase i).1.elems = v.elems.take i ++ v.elems.drop (i + 1) := rfl
  have htk : (v.elems.take i).length = i := by
    rw [List.length_take]
    exact Nat.min_eq_left (Nat.le_of_lt h)
  refine ⟨?_, ?_, ?_, rfl, ?_⟩
  · unfold Vector.Size at *
    rw [hel, List.length_append, List.length_drop, htk]
    omega
  · intro j hj
    rw [List.getD_eq_getElem?_getD, List.getD_eq_getElem?_getD, hel,
      List.getElem?_append_left (by rw [htk]; exact hj),
      List.getElem?_take_of_lt hj]
  · intro j hij hjn
    rw [List.getD_eq_getElem?_getD, List.getD_eq_getElem?_getD, hel,
      List.getElem?_append_right (by rw [htk]; omega), htk,
      List.getElem?_drop, (by omega : i + 1 + (j - 1 - i) = j)]
  · intro hlast
    rw [List.getD_eq_getElem?_getD, List.getD_eq_getElem?_getD, hel,
      List.getElem?_append_right (Nat.le_of_eq htk), htk, Nat.sub_self,
      List.getElem?_drop, Nat.add_zero]

/-- Witness for C5 at the vector [10, 20, 30] with capacity 3, erasing
index 1. -/
theorem erase_correct_witness :
    (Vector.Erase (⟨[10, 20, 30], 3⟩ : Vector Nat) 1).1.Size = 2 ∧
    (Vector.Erase (⟨[10, 20, 30], 3⟩ : Vector Nat) 1).1.elems.getD 1 0 = 30 ∧
    (Vector.Erase (⟨[10, 20, 30], 3⟩ : Vector Nat) 1).2 = 1 := by
  have hc := erase_correct 0 (⟨[10, 20, 30], 3⟩ : Vector Nat) 1 (by decide)
  exact ⟨hc.1, hc.2.2.1 2 (by decide) (by decide), hc.2.2.2.1⟩

/-- C6: `Resize(n)` with `n < L` leaves exactly the first `n` original
elements in order; with `n > L` it preserves the `L` original elements and
appends `n - L` value-constructed elements; with `n = L` it leaves length
and contents unchanged. -/
theorem resize_correct (d : T) (v : Vector T) (n : Nat) :
    (n < v.Size →
      (v.Resize n d).elems = v.elems.take n ∧ (v.Resize n d).Size = n) ∧
    (v.Size < n →
      (v.Resize n d).elems = v.elems ++ List.replicate (n - v.Size) d ∧
      (v.Resize n d).Size = n) ∧
    (n = v.Size →
      (v.Resize n d).elems = v.elems ∧ (v.Resize n d).Size = v.Size) := by
  refine ⟨?_, ?_, ?_⟩
  · intro hlt
    have hel : (v.Resize n d).elems = v.elems.take n := by
      rw [Resize_elems, if_pos hlt]
    refine ⟨hel, ?_⟩
    unfold Vector.Size at *
    rw [hel, List.length_take]
    omega
  · intro hgt
    have hel : (v.Resize n d).elems = v.elems ++ List.replicate (n - v.Size) d := by
      rw [Resize_elems, if_neg (by omega)]
    refine ⟨hel, ?_⟩
    unfold Vector.Size at *
    rw [hel, List.length_append, List.length_replicate]
    omega
  · intro heq
    have hel : (v.Resize n d).elems = v.elems := by
      rw [Resize_elems, if_neg (by omega), heq]
      unfold Vector.Size
      simp
    refine ⟨hel, ?_⟩
    unfold Vector.Size
    rw [hel]

/-- Witness for C6 at the vector [10, 20, 30] with capacity 3, resized to
1, to 5, and to 3. -/
theorem resize_correct_witness :
    (Vector.Resize (⟨[10, 20, 30], 3⟩ : Vector Nat) 1 0).elems = [10] ∧
    (Vector.Resize (⟨[10, 20, 30], 3⟩ : Vector Nat) 5 0).elems
      = [10, 20, 30] ++ List.replicate 2 0 ∧
    (Vector.Resize (⟨[10, 20, 30], 3⟩ : Vector Nat) 3 0).elems = [10, 20, 30] := by
  refine ⟨?_, ?_, ?_⟩
  · exact ((resize_correct 0 (⟨[10, 20, 30], 3⟩ : Vector Nat) 1).1 (by decide)).1
  · exact ((resize_correct 0 (⟨[10, 20, 30], 3⟩ : Vector Nat) 5).2.1 (by decide)).1
  · exact ((resize_correct 0 (⟨[10, 20, 30], 3⟩ : Vector Nat) 3).2.2 (by decide)).1

/-- C3: when the element type has a possibly-failing move constructor and
is copy-constructible, every growth transplant (Reserve-triggered,
append-triggered or insert-triggered) copy-constructs the `size_` existing
elements and performs zero move constructions of them; when the move
constructor is non-throwing or the type is not copy-constructible, the
transplant moves the `size_` existing elements instead. -/
theorem transplant_policy_counts (tr : Traits) (v : Vector T) (c i : Nat)
    (x : T) (hres : v.Capacity < c) (hfull : v.Size = v.Capacity)
    (hi : i ≤ v.Size) :
    (tr.nothrowMove = false ∧ tr.copyCtor = true →
      (Vector.ReserveCounted tr v c).2 = ⟨0, v.Size⟩ ∧
      (Vector.PushBackCounted tr v x).2 = ⟨0, v.Size⟩ ∧
      (Vector.EmplaceGrowCounted tr v i x).2 = ⟨0, v.Size⟩) ∧
    (tr.nothrowMove = true ∨ tr.copyCtor = false →
      (Vector.ReserveCounted tr v c).2 = ⟨v.Size, 0⟩ ∧
      (Vector.PushBackCounted tr v x).2 = ⟨v.Size, 0⟩ ∧
      (Vector.EmplaceGrowCounted tr v i x).2 = ⟨v.Size, 0⟩) := by
  have hresle : ¬ c ≤ v.cap := by
    unfold Vector.Capacity at hres
    omega
  have hieq : i + (v.Size - i) = v.Size := by omega
  constructor
  · rintro ⟨hm, hcc⟩
    have hmt : tr.moveTransplant = false := by
      unfold Traits.moveTransplant
      rw [hm, hcc]
      rfl
    refine ⟨?_, ?_, ?_⟩
    · unfold Vector.ReserveCounted
      simp [hresle, hmt]
    · unfold Vector.PushBackCounted
      simp [hfull, hmt]
    · unfold Vector.EmplaceGrowCounted
      simp [hmt, hieq]
  · intro hm
    have hmt : tr.moveTransplant = true := by
      unfold Traits.moveTransplant
      rcases hm with hm | hm <;> simp [hm]
    refine ⟨?_, ?_, ?_⟩
    · unfold Vector.ReserveCounted
      simp [hresle, hmt]
    · unfold Vector.PushBackCounted
      simp [hfull, hmt]
    · unfold Vector.EmplaceGrowCounted
      simp [hmt, hieq]

/-- Witness for C3 at a full vector of one element, for a throwing-move
copyable type (copy transplant) and for a nothrow-move type (move
transplant). -/
theorem transplant_policy_counts_witness :
    (Vector.PushBackCounted ⟨false, true⟩ (⟨[5], 1⟩ : Vector Nat) 7).2 = ⟨0, 1⟩ ∧
    (Vector.ReserveCounted ⟨false, true⟩ (⟨[5], 1⟩ : Vector Nat) 3).2 = ⟨0, 1⟩ ∧
    (Vector.PushBackCounted ⟨true, true⟩ (⟨[5], 1⟩ : Vector Nat) 7).2 = ⟨1, 0⟩ := by
  have h1 := transplant_policy_counts ⟨false, true⟩ (⟨[5], 1⟩ : Vector Nat) 3 1 7
    (by decide) (by decide) (by decide)
  have h2 := transplant_policy_counts ⟨true, true⟩ (⟨[5], 1⟩ : Vector Nat) 3 1 7
    (by decide) (by decide) (by decide)
  exact ⟨(h1.1 ⟨rfl, rfl⟩).2.1, (h1.1 ⟨rfl, rfl⟩).1, (h2.2 (Or.inl rfl)).2.1⟩

/-- C9: every vector reachable from any constructor by any sequence of the
public operations satisfies the invariant `size_ <= Capacity()`; in this
embedding the live elements are by construction exactly the contiguous
range `[0, size_)` of the storage. -/
theorem size_le_capacity_reachable (d : T) (v : Vector T)
    (h : Reachable d v) : v.Size ≤ v.Capacity := by
  induction h with
  | default => exact Nat.le_refl 0
  | sized n =>
    show (List.replicate n d).length ≤ n
    rw [List.length_replicate]
  | copyCtor _ _ => exact Nat.le_refl _
  | moveCtorDst _ ih => exact ih
  | moveCtorSrc _ _ => exact Nat.le_refl 0
  | pushBack x _ ih => exact PushBackImpl_inv _ x ih
  | pushBackMove x _ ih => exact PushBackImpl_inv _ x ih
  | emplaceBack x _ ih => exact PushBackImpl_inv _ x ih
  | emplace i x hi _ ih => exact Emplace_inv _ i x hi ih
  | insert i x hi _ ih => exact Emplace_inv _ i x hi ih
  | erase i hi _ ih =>
    rw [Erase_size _ i hi]
    exact Nat.le_trans (Nat.sub_le _ _) ih
  | popBack hne _ ih =>
    show (Vector.PopBack _).elems.length ≤ _
    unfold Vector.PopBack
    rw [List.length_dropLast]
    unfold Vector.Size Vector.Capacity at ih
    exact Nat.le_trans (Nat.sub_le _ _) ih
  | resize n _ ih =>
    show (Vector.Resize _ n d).elems.length ≤ (Vector.Resize _ n d).cap
    rw [Resize_elems, Resize_cap, Reserve_cap]
    unfold Vector.Size Vector.Capacity at ih
    unfold Vector.Size
    rename_i w _
    by_cases h1 : n < w.elems.length <;> by_cases h2 : n ≤ w.cap <;>
      simp [h1, h2, List.length_take, List.length_append,
        List.length_replicate] <;> omega
  | reserve c _ ih =>
    rename_i w _
    show (Vector.Reserve w c).elems.length ≤ (Vector.Reserve w c).cap
    rw [Reserve_elems, Reserve_cap]
    unfold Vector.Size Vector.Capacity at ih
    by_cases h2 : c ≤ w.cap <;> simp [h2] <;> omega
  | assignCopy b hb _ _ ihv ihw => exact assignCopy_inv _ _ b ihv ihw
  | assignMoveDst b hb _ _ ihv ihw =>
    cases b
    · exact ihw
    · exact ihv
  | assignMoveSrc b hb _ _ ihv ihw =>
    cases b
    · exact ihv
    · exact ihw
  | swapFst _ _ ihv ihw => exact ihw
  | swapSnd _ _ ihv ihw => exact ihv

/-- Witness for C9 at a concrete reachable state: one append onto a
default-constructed vector. -/
theorem size_le_capacity_reachable_witness :
    (Vector.PushBack (Vector.mkEmpty : Vector Nat) 5).Size ≤
      (Vector.PushBack (Vector.mkEmpty : Vector Nat) 5).Capacity :=
  size_le_capacity_reachable 0 _ (Reachable.pushBack 5 Reachable.default)

/-- C1 (divergence witness): evaluating `PushBackImpl` on a full vector of
one element holding `0` with capacity 1, appending `1`, for an element
type taking the copy transplant, with the transplant copy of element 0
failing.  The vector keeps its pre-operation length and contents, but the
operation performed one element construction (the appended element, built
in the new block before the transplant) and zero element destructions: the
constructed element is abandoned when `temp` frees its block, so the
construction/destruction balance claimed by the specification does not
hold. -/
theorem pushBack_growth_copyfail_leak :
    Vector.PushBackImplCopyFail (⟨[0], 1⟩ : Vector Nat) 1 (some 0)
      = (⟨[0], 1⟩, true, ⟨1, 0⟩) ∧
    (Vector.PushBackImplCopyFail (⟨[0], 1⟩ : Vector Nat) 1 (some 0)).2.2.ctorN ≠
      (Vector.PushBackImplCopyFail (⟨[0], 1⟩ : Vector Nat) 1 (some 0)).2.2.dtorN := by
  refine ⟨rfl, by decide⟩

end AdvVec
